import Mathlib

/-!
Verification of the note scoring-rule engine (`scoring_rules.py`).

The embedding models pandas dataframes as Lean lists:
* the input note table is a `List Note`, one record per row;
* the label table (`noteLabels`) and audit table (`noteRules`) are
  `List (Int × String)` association lists keyed by note id;
* supplemental columns (`noteColumns`) are a `SuppTable`: a list of non-id
  column names plus rows of id-keyed value vectors (`Option String` values,
  `none` standing for NaN produced by outer/left joins);
* every Python `assert` becomes an `Except.error` branch, so a run either
  returns the completed table or aborts with the name of the violated check.

Numeric scoring signals (intercept, adjusted tag totals and ratios,
thresholds) are modelled as `Int`: the engine and the tag filter only ever
compare them, never do arithmetic, so any linearly ordered carrier is
faithful and `Int` keeps every definition executable.
-/

/-- Modelled from the spec: the `constants` module is not under `src/`.
The spec fixes three canonical statuses (CRH / CRNH / NMR). -/
def currentlyRatedHelpful : String := "CURRENTLY_RATED_HELPFUL"

/-- Modelled from the spec: canonical status for currently-rated-not-helpful. -/
def currentlyRatedNotHelpful : String := "CURRENTLY_RATED_NOT_HELPFUL"

/-- Modelled from the spec: canonical status for needs-more-ratings. -/
def needsMoreRatings : String := "NEEDS_MORE_RATINGS"

/-- Modelled from the spec: the fixed ordered list of negative-feedback tag
names (`c.notHelpfulTagsTSVOrder`); the spec only requires a fixed ordered
list containing the two exempted tags, so representative names are used. -/
def notHelpfulTagsTSVOrder : List String :=
  ["spam", "harassment", "hardToUnderstand", "noteNotNeeded"]

/-- Modelled from the spec: first tag exempted from outlier filtering. -/
def notHelpfulHardToUnderstandKey : String := "hardToUnderstand"

/-- Modelled from the spec: second tag exempted from outlier filtering. -/
def notHelpfulNoteNotNeededKey : String := "noteNotNeeded"

/-- Modelled from the spec: name of the supplemental column emitted by the
tag outlier filter. -/
def activeFilterTagsKey : String := "activeFilterTags"

/-- One row of the input note table: the note id, the intercept score and,
for each tag name, the adjusted total and adjusted ratio columns. -/
structure Note where
  noteId : Int
  noteIntercept : Int
  adjustedTotal : String → Int
  adjustedRatio : String → Int

/-- Supplemental columns contributed by rules: the non-id column names and
rows pairing a note id with the value vector aligned to `cols` (`none` is
NaN from an outer join). -/
structure SuppTable where
  cols : List String
  rows : List (Int × List (Option String))

/-- Identity of a scoring rule: a rule name together with a revision. -/
structure RuleAndVersion where
  ruleName : String
  ruleVersion : String
deriving DecidableEq

/-- Each RuleID must have a unique ruleName and can be assigned to at most
one ScoringRule. -/
inductive RuleID
  | INITIAL_NMR
  | GENERAL_CRH
  | GENERAL_CRNH
  | TAG_OUTLIER
deriving DecidableEq

/-- Name and version pair backing each member of the `RuleID` enum. -/
def RuleID.value : RuleID → RuleAndVersion
  | .INITIAL_NMR => ⟨"InitialNMR", "1.0"⟩
  | .GENERAL_CRH => ⟨"GeneralCRH", "1.0"⟩
  | .GENERAL_CRNH => ⟨"GeneralCRNH", "1.0"⟩
  | .TAG_OUTLIER => ⟨"TagFilter", "1.0"⟩

/-- A scoring rule: identity, status to assign when active, prerequisite
rules, and the scoring operation.  The abstract Python base class admits
arbitrary subclasses, so `score_notes` is an arbitrary function returning
the matched note ids and optional supplemental columns. -/
structure ScoringRule where
  ruleID : RuleID
  status : String
  dependencies : List RuleID
  score_notes : List Note → List (Int × String) → List Int × Option SuppTable

/-- Returns the RuleID uniquely identifying this ScoringRule. -/
def ScoringRule.get_rule_id (r : ScoringRule) : RuleID := r.ruleID

/-- Returns a string combining the name and version to uniquely name the
logic of the ScoringRule. -/
def ScoringRule.get_name (r : ScoringRule) : String :=
  r.ruleID.value.ruleName ++ " (v" ++ r.ruleID.value.ruleVersion ++ ")"

/-- Returns the ratingStatus for notes where this ScoringRule is active. -/
def ScoringRule.get_status (r : ScoringRule) : String := r.status

/-- Dependency check: true when every prerequisite has already run
(`assert not (self._dependencies - priorRules)`). -/
def ScoringRule.check_dependencies (r : ScoringRule) (priorRules : List RuleID) : Bool :=
  r.dependencies.all (fun d => decide (d ∈ priorRules))

/-- DefaultRule: returns all noteIDs to initialize all note ratings to a
default status. -/
def DefaultRule (ruleID : RuleID) (status : String) (dependencies : List RuleID) :
    ScoringRule :=
  ⟨ruleID, status, dependencies, fun noteStats _ => (noteStats.map Note.noteId, none)⟩

/-- RuleFromFunction: returns noteIDs for notes matched by the boolean
function. -/
def RuleFromFunction (ruleID : RuleID) (status : String) (dependencies : List RuleID)
    (function : Note → Bool) : ScoringRule :=
  ⟨ruleID, status, dependencies,
    fun noteStats _ => ((noteStats.filter function).map Note.noteId, none)⟩

/-- Restriction of the note table to notes currently labeled CRH: the inner
merge of `noteStats` with the ids of CRH rows of `currentLabels`, keeping
the left order and multiplicity of key matches. -/
def crhStatsOf (noteStats : List Note) (currentLabels : List (Int × String)) :
    List Note :=
  let crhNotes := (currentLabels.filter
    (fun p => decide (p.2 = currentlyRatedHelpful))).map Prod.fst
  noteStats.flatMap (fun n =>
    (crhNotes.filter (fun k => decide (k = n.noteId))).map (fun _ => n))

/-- Row selection of the tag filter for one tag: adjusted total above the
floor, adjusted ratio above the tag's threshold, intercept strictly below
the super threshold. -/
def tagFilteredNotes (crhStats : List Note) (thresholds : String → Int)
    (minAdjustedTotal crhSuperThreshold : Int) (tag : String) : List Int :=
  (crhStats.filter (fun n =>
    decide (n.adjustedTotal tag > minAdjustedTotal) &&
    decide (n.adjustedRatio tag > thresholds tag) &&
    decide (n.noteIntercept < crhSuperThreshold))).map Note.noteId

/-- All recorded (note id, tag) pairs of the tag filter, tag-major in the
fixed tag order, skipping the two exempted tags. -/
def impactedPairsOf (crhStats : List Note) (thresholds : String → Int)
    (minAdjustedTotal crhSuperThreshold : Int) : List (Int × String) :=
  notHelpfulTagsTSVOrder.flatMap (fun tag =>
    if tag = notHelpfulHardToUnderstandKey ∨ tag = notHelpfulNoteNotNeededKey then []
    else (tagFilteredNotes crhStats thresholds minAdjustedTotal crhSuperThreshold
      tag).map (fun i => (i, tag)))

/-- Pandas `groupby(key).aggregate(list)`: one row per distinct key, the
values of its rows in original order.  The key order of the pandas result
(sorted ascending) is not observable in any property below, so the order
of `List.dedup` is kept. -/
def groupByKey (l : List (Int × String)) : List (Int × List String) :=
  ((l.map Prod.fst).dedup).map
    (fun k => (k, (l.filter (fun p => decide (p.1 = k))).map Prod.snd))

/-- Comma join used for both `activeFilterTags` and `activeRules`. -/
def joinComma (l : List String) : String := String.intercalate "," l

/-- FilterTagOutliers: filter CRH notes for outliers with high levels of
any particular tag.  The external threshold provider
(`tag_filter.get_tag_thresholds`, not under `src/`) is passed in as a
function argument, modelled from the spec's collaborator interface
`threshold(table, percentile) -> mapping(column -> value)`. -/
def FilterTagOutliers (ruleID : RuleID) (status : String) (dependencies : List RuleID)
    (tagRatioPercentile : Int) (minAdjustedTotal crhSuperThreshold : Int)
    (get_tag_thresholds : List Note → Int → String → Int) : ScoringRule :=
  ⟨ruleID, status, dependencies, fun noteStats currentLabels =>
    let crhStats := crhStatsOf noteStats currentLabels
    let thresholds := get_tag_thresholds crhStats tagRatioPercentile
    let impactedNotes :=
      groupByKey (impactedPairsOf crhStats thresholds minAdjustedTotal crhSuperThreshold)
    ((impactedNotes.map Prod.fst).dedup,
      some ⟨[activeFilterTagsKey],
        impactedNotes.map (fun p => (p.1, [some (joinComma p.2)]))⟩)⟩

/-- Pandas `concat(...).groupby(key).tail(1)`: keep, in original order, the
last row of each key. -/
def keepLastPerKey : List (Int × String) → List (Int × String)
  | [] => []
  | p :: rest =>
    if rest.any (fun q => decide (q.1 = p.1)) then keepLastPerKey rest
    else p :: keepLastPerKey rest

/-- Label-table update of the engine: append one row per matched id with
the rule's status, then keep only the last row per id. -/
def updateLabels (labels : List (Int × String)) (active : List Int) (status : String) :
    List (Int × String) :=
  keepLastPerKey (labels ++ active.map (fun i => (i, status)))

/-- Python set equality between two id collections. -/
def sameIntSet (a b : List Int) : Bool :=
  a.all (fun x => decide (x ∈ b)) && b.all (fun x => decide (x ∈ a))

/-- Engine guard on a score result: if supplemental columns are present,
their id set must equal the matched id set
(`assert set(activeNotes) == set(additionalColumns[noteIdKey])`). -/
def checkSuppIds (res : List Int × Option SuppTable) : Bool :=
  match res.2 with
  | none => true
  | some supp => sameIntSet res.1 (supp.rows.map Prod.fst)

/-- Row of NaNs used to pad the short side of an outer or left join. -/
def padNone (n : Nat) : List (Option String) := List.replicate n none

/-- Pandas outer merge of two supplemental tables on the id column:
columns of the left table then of the right, one row per key combination,
NaN padding where a side has no row for the key. -/
def outerMerge (a b : SuppTable) : SuppTable :=
  let keys := ((a.rows.map Prod.fst) ++ (b.rows.map Prod.fst)).dedup
  ⟨a.cols ++ b.cols,
    keys.flatMap (fun k =>
      let ar := a.rows.filter (fun r => decide (r.1 = k))
      let br := b.rows.filter (fun r => decide (r.1 = k))
      if ar.isEmpty then br.map (fun r => (k, padNone a.cols.length ++ r.2))
      else if br.isEmpty then ar.map (fun r => (k, r.2 ++ padNone b.cols.length))
      else ar.flatMap (fun ra => br.map (fun rb => (k, ra.2 ++ rb.2))))⟩

/-- Mutable run state of `apply_scoring_rules`. -/
structure EngineState where
  noteLabels : List (Int × String)
  noteRules : List (Int × String)
  noteColumns : SuppTable
  ruleIDs : List RuleID

/-- Empty state created fresh at the start of each run. -/
def initState : EngineState := ⟨[], [], ⟨[], []⟩, []⟩

/-- Error raised by `check_dependencies`. -/
def depErr : String := "check_dependencies failed"

/-- Error raised by the duplicate-identity assertion. -/
def dupErr : String := "repeate ruleID"

/-- Error raised when supplemental ids differ from the matched ids. -/
def suppIdsErr : String := "activeNotes and additionalColumns noteIds differ"

/-- Error raised when a supplemental column name collides with one already
contributed by an earlier rule. -/
def colErr : String := "additionalColumns column collision"

/-- Error raised when some input note is missing a label after all rules. -/
def labelsErr : String := "noteLabels incomplete"

/-- Error raised when some input note has no audit entry after all rules. -/
def rulesErr : String := "noteRules incomplete"

/-- Error raised when supplemental rows mention unknown note ids. -/
def colsIdsErr : String := "noteColumns contains unknown noteIds"

/-- Error raised when the final row count differs from the input count. -/
def lenErr : String := "scoredNotes length mismatch"

/-- One iteration of the engine loop: dependency check, duplicate-identity
check, score, supplemental-id check, label and audit updates, column
collision check and outer merge of supplemental columns. -/
def stepRule (noteStats : List Note) (st : EngineState) (rule : ScoringRule) :
    Except String EngineState :=
  if rule.check_dependencies st.ruleIDs then
    if rule.get_rule_id ∈ st.ruleIDs then .error dupErr
    else
      let ruleIDs1 := rule.get_rule_id :: st.ruleIDs
      let res := rule.score_notes noteStats st.noteLabels
      if checkSuppIds res then
        let noteLabels1 := updateLabels st.noteLabels res.1 rule.get_status
        let noteRules1 := st.noteRules ++ res.1.map (fun i => (i, rule.get_name))
        match res.2 with
        | none => .ok ⟨noteLabels1, noteRules1, st.noteColumns, ruleIDs1⟩
        | some supp =>
          if st.noteColumns.cols.all (fun s => decide (s ∉ supp.cols)) then
            .ok ⟨noteLabels1, noteRules1, outerMerge st.noteColumns supp, ruleIDs1⟩
          else .error colErr
      else .error suppIdsErr
  else .error depErr

/-- Successive application of each rule to the run state. -/
def applyRulesLoop (noteStats : List Note) :
    List ScoringRule → EngineState → Except String EngineState
  | [], st => .ok st
  | rule :: rest, st =>
    match stepRule noteStats st rule with
    | .error e => .error e
    | .ok st1 => applyRulesLoop noteStats rest st1

/-- Row of the final table before the three boolean indicator columns:
original note record, final status, joined audit string, supplemental
values. -/
structure ScoredRow where
  note : Note
  ratingStatus : String
  activeRules : String
  suppVals : List (Option String)

/-- Completed output row including the three boolean indicator columns. -/
structure ScoredNote where
  note : Note
  ratingStatus : String
  activeRules : String
  suppVals : List (Option String)
  currentlyRatedHelpfulBool : Bool
  currentlyRatedNotHelpfulBool : Bool
  awaitingMoreRatingsBool : Bool

/-- Boolean indicator columns derived from the final status by equality
against each canonical status value. -/
def setBools (r : ScoredRow) : ScoredNote :=
  ⟨r.note, r.ratingStatus, r.activeRules, r.suppVals,
    r.ratingStatus == currentlyRatedHelpful,
    r.ratingStatus == currentlyRatedNotHelpful,
    r.ratingStatus == needsMoreRatings⟩

/-- Inner merge of the note table with the label table on note id,
preserving left order, one output row per matching right row. -/
def mergeLabels (noteStats : List Note) (labels : List (Int × String)) :
    List (Note × String) :=
  noteStats.flatMap (fun n =>
    (labels.filter (fun p => decide (p.1 = n.noteId))).map (fun p => (n, p.2)))

/-- Inner merge with the condensed audit table on note id. -/
def mergeRules (s : List (Note × String)) (noteRules : List (Int × String)) :
    List (Note × String × String) :=
  s.flatMap (fun a =>
    (noteRules.filter (fun p => decide (p.1 = a.1.noteId))).map
      (fun p => (a.1, a.2, p.2)))

/-- Rows produced by the left merge for one left row: one row per matching
supplemental row, or a single NaN-padded row when there is no match. -/
def colsRowsFor (noteColumns : SuppTable) (a : Note × String × String) :
    List ScoredRow :=
  let ms := noteColumns.rows.filter (fun r => decide (r.1 = a.1.noteId))
  if ms.isEmpty then [⟨a.1, a.2.1, a.2.2, padNone noteColumns.cols.length⟩]
  else ms.map (fun r => ⟨a.1, a.2.1, a.2.2, r.2⟩)

/-- Left merge with the supplemental columns on note id: every left row is
kept; a row with no supplemental match gets a NaN-padded value vector. -/
def mergeColumns (s : List (Note × String × String)) (noteColumns : SuppTable) :
    List ScoredRow :=
  s.flatMap (colsRowsFor noteColumns)

/-- Post-loop phase of `apply_scoring_rules`: condense the audit table,
check the completeness invariants, perform the three merges, check the row
count and derive the boolean indicator columns. -/
def finalizeRun (noteStats : List Note) (st : EngineState) :
    Except String (List ScoredNote) :=
  let noteRulesG := (groupByKey st.noteRules).map (fun p => (p.1, joinComma p.2))
  if sameIntSet (noteStats.map Note.noteId) (st.noteLabels.map Prod.fst) then
    if sameIntSet (noteStats.map Note.noteId) (noteRulesG.map Prod.fst) then
      if (st.noteColumns.rows.map Prod.fst).all
          (fun i => decide (i ∈ noteStats.map Note.noteId)) then
        let scoredNotes :=
          mergeColumns (mergeRules (mergeLabels noteStats st.noteLabels) noteRulesG)
            st.noteColumns
        if scoredNotes.length = noteStats.length then
          .ok (scoredNotes.map setBools)
        else .error lenErr
      else .error colsIdsErr
    else .error rulesErr
  else .error labelsErr

/-- Apply a list of ScoringRules to note inputs and return noteStats
augmented with scoring results, or the name of the violated invariant. -/
def apply_scoring_rules (noteStats : List Note) (rules : List ScoringRule) :
    Except String (List ScoredNote) :=
  match applyRulesLoop noteStats rules initState with
  | .error e => .error e
  | .ok st => finalizeRun noteStats st

/-- Per-rule activation trace of a run: the display name of each executed
rule paired with the note ids it matched, in application order.  Recurses
exactly like `applyRulesLoop` and fails on exactly the same inputs. -/
def runActivationsLoop (noteStats : List Note) :
    List ScoringRule → EngineState → Except String (List (String × List Int))
  | [], _ => .ok []
  | rule :: rest, st =>
    match stepRule noteStats st rule with
    | .error e => .error e
    | .ok st1 =>
      match runActivationsLoop noteStats rest st1 with
      | .error e => .error e
      | .ok tr => .ok ((rule.get_name, (rule.score_notes noteStats st.noteLabels).1) :: tr)

/-- Definition following the claim's wording: a rule list respects its own
declared dependencies when each rule's prerequisites are identities of
rules appearing earlier in the list. -/
def respectsDeclaredDependencies : List ScoringRule → List RuleID → Bool
  | [], _ => true
  | r :: rest, done =>
    r.check_dependencies done && respectsDeclaredDependencies rest (r.get_rule_id :: done)

/-- Observation: the final statuses of a run, in row order. -/
def resultStatuses (r : Except String (List ScoredNote)) : Option (List String) :=
  match r with
  | .error _ => none
  | .ok t => some (t.map ScoredNote.ratingStatus)

/-- Observation: the note ids of a run's output rows, in row order. -/
def resultIds (r : Except String (List ScoredNote)) : Option (List Int) :=
  match r with
  | .error _ => none
  | .ok t => some (t.map (fun s => s.note.noteId))

/-- Observation: the supplemental rows of a score result. -/
def suppRowsOf (res : List Int × Option SuppTable) : List (Int × List (Option String)) :=
  match res.2 with
  | none => []
  | some supp => supp.rows

/-- Observation: the supplemental id column of a score result. -/
def suppIdsOf (res : List Int × Option SuppTable) : List Int :=
  (suppRowsOf res).map Prod.fst

/-- Last status recorded for a note id in a label table (the status pandas
keeps after `groupby(noteIdKey).tail(1)`). -/
def lookupLast (l : List (Int × String)) (k : Int) : Option String :=
  ((l.filter (fun p => decide (p.1 = k))).map Prod.snd).getLast?

/-- Note record with the given id and intercept whose adjusted total and
ratio are 1 for every tag; used for concrete runs. -/
def mkNote (i ic : Int) : Note := ⟨i, ic, fun _ => 1, fun _ => 1⟩

/-- Singleton input table used by concrete runs. -/
def oneNote : List Note := [mkNote 1 0]

/-- Three-note input table used by concrete runs. -/
def threeNotes : List Note := [mkNote 1 0, mkNote 2 0, mkNote 3 0]

/-- Catch-all rule followed by an always-true predicate rule, the scenario
of the last-write-wins example. -/
def overwriteRules : List ScoringRule :=
  [DefaultRule .INITIAL_NMR needsMoreRatings [],
   RuleFromFunction .GENERAL_CRH currentlyRatedHelpful [] (fun _ => true)]

/-- Tag outlier filter instance with a constant zero threshold provider,
floor 0 and super threshold 10; used for concrete runs. -/
def ftoRule : ScoringRule :=
  FilterTagOutliers .TAG_OUTLIER needsMoreRatings [] 95 0 10 (fun _ _ _ => 0)

/-- Rule whose supplemental table has an id set different from its matched
ids, exercising the engine's supplemental-id assertion. -/
def badSuppRule : ScoringRule :=
  ⟨.GENERAL_CRH, currentlyRatedHelpful, [], fun _ _ => ([1], some ⟨["foo"], []⟩)⟩

/-- First of two rules emitting a supplemental column named foo. -/
def fooRuleA : ScoringRule :=
  ⟨.INITIAL_NMR, needsMoreRatings, [],
    fun noteStats _ => (noteStats.map Note.noteId, some ⟨["foo"], [(1, [some "x"])]⟩)⟩

/-- Second of two rules emitting a supplemental column named foo. -/
def fooRuleB : ScoringRule :=
  ⟨.GENERAL_CRH, currentlyRatedHelpful, [],
    fun noteStats _ => (noteStats.map Note.noteId, some ⟨["foo"], [(1, [some "y"])]⟩)⟩

/-- Engine state reached after running `fooRuleA` on `oneNote`. -/
def stateAfterFooA : EngineState :=
  ⟨[(1, needsMoreRatings)], [(1, "InitialNMR (v1.0)")],
    ⟨["foo"], [(1, [some "x"])]⟩, [.INITIAL_NMR]⟩

/-- Rule depending on `INITIAL_NMR`, used to exercise the dependency check. -/
def needsNmrRule : ScoringRule :=
  DefaultRule .GENERAL_CRH currentlyRatedHelpful [.INITIAL_NMR]

/-- Tags of the fixed tag list that trigger the outlier filter for note
`n`: non-exempt tags whose adjusted total, adjusted ratio and intercept
conditions all hold, in fixed tag-list order. -/
def triggeringTags (thresholds : String → Int)
    (minAdjustedTotal crhSuperThreshold : Int) (n : Note) : List String :=
  notHelpfulTagsTSVOrder.filter (fun tag =>
    !(decide (tag = notHelpfulHardToUnderstandKey) ||
      decide (tag = notHelpfulNoteNotNeededKey)) &&
    (decide (n.adjustedTotal tag > minAdjustedTotal) &&
     decide (n.adjustedRatio tag > thresholds tag) &&
     decide (n.noteIntercept < crhSuperThreshold)))

/-! ### Lemmas about the list primitives backing the engine -/

lemma keepLastPerKey_sublist (l : List (Int × String)) :
    List.Sublist (keepLastPerKey l) l := by
  induction l with
  | nil => simp [keepLastPerKey]
  | cons p rest ih =>
    cases h : rest.any (fun q => decide (q.1 = p.1)) with
    | true => simpa [keepLastPerKey, h] using ih.cons p
    | false => simpa [keepLastPerKey, h] using ih.cons₂ p

lemma keepLastPerKey_keys_nodup (l : List (Int × String)) :
    ((keepLastPerKey l).map Prod.fst).Nodup := by
  induction l with
  | nil => simp [keepLastPerKey]
  | cons p rest ih =>
    cases h : rest.any (fun q => decide (q.1 = p.1)) with
    | true => simpa [keepLastPerKey, h] using ih
    | false =>
      simp only [keepLastPerKey, h, if_false, Bool.false_eq_true, List.map_cons]
      refine List.nodup_cons.mpr ⟨?_, ih⟩
      intro hmem
      have hrest : p.1 ∈ rest.map Prod.fst :=
        ((keepLastPerKey_sublist rest).map Prod.fst).subset hmem
      rw [List.any_eq_false] at h
      obtain ⟨q, hq, hq1⟩ := List.mem_map.mp hrest
      exact h q hq (by simp [hq1])

lemma getLast?_cons_of_ne_nil {α : Type} (a : α) {l : List α} (h : l ≠ []) :
    (a :: l).getLast? = l.getLast? := by
  cases l with
  | nil => exact absurd rfl h
  | cons b m => exact List.getLast?_cons_cons

lemma lookupLast_keepLastPerKey (l : List (Int × String)) (k : Int) :
    lookupLast (keepLastPerKey l) k = lookupLast l k := by
  induction l with
  | nil => rfl
  | cons p rest ih =>
    cases h : rest.any (fun q => decide (q.1 = p.1)) with
    | false =>
      have hkeys : keepLastPerKey (p :: rest) = p :: keepLastPerKey rest := by
        simp [keepLastPerKey, h]
      by_cases hk : p.1 = k
      · have hrest : rest.filter (fun q => decide (q.1 = k)) = [] := by
          rw [List.filter_eq_nil_iff]
          intro q hq
          rw [List.any_eq_false] at h
          simpa [hk] using h q hq
        have hkeep : (keepLastPerKey rest).filter (fun q => decide (q.1 = k)) = [] :=
          List.sublist_nil.mp (hrest ▸ (keepLastPerKey_sublist rest).filter _)
        rw [hkeys]
        unfold lookupLast
        rw [List.filter_cons_of_pos (by simp [hk]), List.filter_cons_of_pos (by simp [hk]),
          hrest, hkeep]
      · rw [hkeys]
        unfold lookupLast
        rw [List.filter_cons_of_neg (by simp [hk]), List.filter_cons_of_neg (by simp [hk])]
        exact ih
    | true =>
      have hkeys : keepLastPerKey (p :: rest) = keepLastPerKey rest := by
        simp [keepLastPerKey, h]
      by_cases hk : p.1 = k
      · obtain ⟨q, hq, hq1⟩ : ∃ q ∈ rest, q.1 = p.1 := by
          simpa [List.any_eq_true] using h
        have hne : (rest.filter (fun r => decide (r.1 = k))).map Prod.snd ≠ [] := by
          intro h0
          rw [List.map_eq_nil_iff, List.filter_eq_nil_iff] at h0
          exact h0 q hq (by simp [hq1, hk])
        rw [hkeys]
        conv_rhs => unfold lookupLast
        rw [List.filter_cons_of_pos (by simp [hk]), List.map_cons,
          getLast?_cons_of_ne_nil _ hne]
        exact ih
      · rw [hkeys]
        conv_rhs => unfold lookupLast
        rw [List.filter_cons_of_neg (by simp [hk])]
        exact ih

lemma getLast?_all_eq {α : Type} (l : List α) (s : α) (hne : l ≠ [])
    (hall : ∀ x ∈ l, x = s) : l.getLast? = some s := by
  induction l with
  | nil => exact absurd rfl hne
  | cons a t ih =>
    cases t with
    | nil => simp [hall a (by simp)]
    | cons b m =>
      rw [getLast?_cons_of_ne_nil a (by simp)]
      exact ih (by simp) (fun x hx => hall x (List.mem_cons_of_mem a hx))

lemma lookupLast_append_of_mem (l : List (Int × String)) (active : List Int)
    (s : String) (k : Int) (h : k ∈ active) :
    lookupLast (l ++ active.map (fun i => (i, s))) k = some s := by
  unfold lookupLast
  rw [List.filter_append, List.map_append]
  have hmem : (k, s) ∈ (active.map (fun i => (i, s))).filter
      (fun p => decide (p.1 = k)) := by
    rw [List.mem_filter]
    exact ⟨List.mem_map.mpr ⟨k, h, rfl⟩, by simp⟩
  have hne : ((active.map (fun i => (i, s))).filter
      (fun p => decide (p.1 = k))).map Prod.snd ≠ [] := by
    intro h0
    rw [List.map_eq_nil_iff] at h0
    rw [h0] at hmem
    cases hmem
  rw [List.getLast?_append_of_ne_nil _ hne]
  refine getLast?_all_eq _ s hne ?_
  intro x hx
  obtain ⟨p, hp, hps⟩ := List.mem_map.mp hx
  obtain ⟨i, _, hi⟩ := List.mem_map.mp (List.mem_filter.mp hp).1
  rw [← hps, ← hi]

lemma lookupLast_updateLabels_mem (labels : List (Int × String)) (active : List Int)
    (status : String) (k : Int) (h : k ∈ active) :
    lookupLast (updateLabels labels active status) k = some status := by
  unfold updateLabels
  rw [lookupLast_keepLastPerKey]
  exact lookupLast_append_of_mem labels active status k h

lemma sameIntSet_iff (a b : List Int) :
    sameIntSet a b = true ↔ (∀ x ∈ a, x ∈ b) ∧ ∀ x ∈ b, x ∈ a := by
  simp [sameIntSet, List.all_eq_true]

lemma filter_key_eq_of_nodup {β : Type} (l : List (Int × β)) (k : Int)
    (hnd : (l.map Prod.fst).Nodup) (hm : k ∈ l.map Prod.fst) :
    ∃ v, l.filter (fun p => decide (p.1 = k)) = [(k, v)] := by
  induction l with
  | nil => cases hm
  | cons p rest ih =>
    rw [List.map_cons, List.nodup_cons] at hnd
    rcases List.mem_cons.mp hm with h1 | h1
    · refine ⟨p.2, ?_⟩
      rw [List.filter_cons_of_pos (by simp [h1.symm])]
      have hrest : rest.filter (fun q => decide (q.1 = k)) = [] := by
        rw [List.filter_eq_nil_iff]
        intro q hq
        simp only [decide_eq_true_eq]
        intro hqk
        exact hnd.1 (h1 ▸ hqk ▸ List.mem_map_of_mem Prod.fst hq)
      rw [hrest, h1, Prod.mk.eta]
    · have hpk : ¬ (p.1 = k) := fun he => hnd.1 (he ▸ h1)
      rw [List.filter_cons_of_neg (by simp [hpk])]
      exact ih hnd.2 h1

lemma filter_map_eq_singleton {α β : Type} [DecidableEq β] (f : α → β) (p : α → Bool)
    (l : List α) (n : α) (hnd : (l.map f).Nodup) (hn : n ∈ l) :
    l.filter (fun m => p m && decide (f m = f n)) = if p n then [n] else [] := by
  induction l with
  | nil => cases hn
  | cons a t ih =>
    rw [List.map_cons, List.nodup_cons] at hnd
    rcases List.mem_cons.mp hn with rfl | h1
    · have ht : t.filter (fun m => p m && decide (f m = f n)) = [] := by
        rw [List.filter_eq_nil_iff]
        intro m hm
        simp only [Bool.and_eq_true, decide_eq_true_eq, not_and]
        intro _ hfe
        exact hnd.1 (hfe ▸ List.mem_map_of_mem f hm)
      by_cases hp : p n = true
      · rw [List.filter_cons_of_pos (by simp [hp]), ht, if_pos hp]
      · rw [List.filter_cons_of_neg (by simp [hp]), ht, if_neg hp]
    · have hfa : ¬ (f a = f n) := fun he => hnd.1 (he ▸ List.mem_map_of_mem f h1)
      rw [List.filter_cons_of_neg (by simp [hfa])]
      exact ih hnd.2 h1

lemma filter_eq_of_nodup_mem (l : List Int) (a : Int) (hnd : l.Nodup) (ha : a ∈ l) :
    l.filter (fun x => decide (x = a)) = [a] := by
  induction l with
  | nil => cases ha
  | cons x t ih =>
    rw [List.nodup_cons] at hnd
    rcases List.mem_cons.mp ha with rfl | h1
    · rw [List.filter_cons_of_pos (by simp)]
      have ht : t.filter (fun y => decide (y = a)) = [] := by
        rw [List.filter_eq_nil_iff]
        intro y hy
        simp only [decide_eq_true_eq]
        intro he
        exact hnd.1 (he ▸ hy)
      rw [ht]
    · have hxa : ¬ (x = a) := fun he => hnd.1 (he ▸ h1)
      rw [List.filter_cons_of_neg (by simp [hxa])]
      exact ih hnd.2 h1

lemma filter_eq_nil_of_not_mem (l : List Int) (a : Int) (ha : a ∉ l) :
    l.filter (fun x => decide (x = a)) = [] := by
  rw [List.filter_eq_nil_iff]
  intro y hy
  simp only [decide_eq_true_eq]
  intro he
  exact ha (he ▸ hy)

lemma crhStatsOf_eq_filter (ns : List Note) (labels : List (Int × String))
    (hlab : (labels.map Prod.fst).Nodup) :
    crhStatsOf ns labels = ns.filter (fun n =>
      decide (n.noteId ∈ (labels.filter
        (fun p => decide (p.2 = currentlyRatedHelpful))).map Prod.fst)) := by
  unfold crhStatsOf
  have hcn : ((labels.filter (fun p => decide (p.2 = currentlyRatedHelpful))).map
      Prod.fst).Nodup :=
    hlab.sublist ((List.filter_sublist labels).map Prod.fst)
  induction ns with
  | nil => rfl
  | cons n t ih =>
    rw [List.flatMap_cons, List.filter_cons, ih]
    by_cases hmem : n.noteId ∈ (labels.filter
        (fun p => decide (p.2 = currentlyRatedHelpful))).map Prod.fst
    · rw [filter_eq_of_nodup_mem _ _ hcn hmem]
      simp [hmem]
    · rw [filter_eq_nil_of_not_mem _ _ hmem]
      simp [hmem]

/-! ### Lemmas about the merge steps -/

lemma mergeLabels_map_fst (ns : List Note) (labels : List (Int × String))
    (hnd : (labels.map Prod.fst).Nodup)
    (hcov : ∀ n ∈ ns, n.noteId ∈ labels.map Prod.fst) :
    (mergeLabels ns labels).map Prod.fst = ns := by
  induction ns with
  | nil => rfl
  | cons n t ih =>
    obtain ⟨v, hv⟩ := filter_key_eq_of_nodup labels n.noteId hnd (hcov n (by simp))
    have hsplit : mergeLabels (n :: t) labels = (n, v) :: mergeLabels t labels := by
      unfold mergeLabels
      rw [List.flatMap_cons, hv]
      rfl
    rw [hsplit, List.map_cons, ih (fun m hm => hcov m (List.mem_cons_of_mem n hm))]

lemma mergeRules_map_fst (s : List (Note × String)) (nr : List (Int × String))
    (hnd : (nr.map Prod.fst).Nodup)
    (hcov : ∀ a ∈ s, a.1.noteId ∈ nr.map Prod.fst) :
    (mergeRules s nr).map Prod.fst = s.map Prod.fst := by
  induction s with
  | nil => rfl
  | cons a t ih =>
    obtain ⟨v, hv⟩ := filter_key_eq_of_nodup nr a.1.noteId hnd (hcov a (by simp))
    have hsplit : mergeRules (a :: t) nr = (a.1, a.2, v) :: mergeRules t nr := by
      unfold mergeRules
      rw [List.flatMap_cons, hv]
      rfl
    rw [hsplit, List.map_cons, ih (fun m hm => hcov m (List.mem_cons_of_mem a hm))]
    rfl

lemma colsRowsFor_length_pos (noteColumns : SuppTable) (a : Note × String × String) :
    1 ≤ (colsRowsFor noteColumns a).length := by
  unfold colsRowsFor
  by_cases hms : (noteColumns.rows.filter (fun r => decide (r.1 = a.1.noteId))).isEmpty
  · simp [hms]
  · rw [if_neg hms, List.length_map]
    cases hc : noteColumns.rows.filter (fun r => decide (r.1 = a.1.noteId)) with
    | nil => simp [hc] at hms
    | cons x xs => simp

lemma mem_colsRowsFor (noteColumns : SuppTable) (a : Note × String × String)
    (r : ScoredRow) (hr : r ∈ colsRowsFor noteColumns a) :
    r.note = a.1 ∧ r.ratingStatus = a.2.1 ∧ r.activeRules = a.2.2 := by
  unfold colsRowsFor at hr
  by_cases hms : (noteColumns.rows.filter (fun r => decide (r.1 = a.1.noteId))).isEmpty
  · rw [if_pos hms] at hr
    rcases List.mem_singleton.mp hr with rfl
    exact ⟨rfl, rfl, rfl⟩
  · rw [if_neg hms] at hr
    obtain ⟨x, _, hx⟩ := List.mem_map.mp hr
    rw [← hx]
    exact ⟨rfl, rfl, rfl⟩

lemma map_eq_replicate_of_all {α β : Type} (l : List α) (f : α → β) (b : β)
    (h : ∀ x ∈ l, f x = b) : l.map f = List.replicate l.length b := by
  induction l with
  | nil => rfl
  | cons a t ih =>
    rw [List.map_cons, List.length_cons, List.replicate_succ, h a (by simp),
      ih (fun x hx => h x (List.mem_cons_of_mem a hx))]

lemma colsRowsFor_ids (noteColumns : SuppTable) (a : Note × String × String) :
    (colsRowsFor noteColumns a).map (fun r => r.note.noteId)
      = List.replicate (colsRowsFor noteColumns a).length a.1.noteId := by
  refine map_eq_replicate_of_all _ _ _ ?_
  intro x hx
  rw [(mem_colsRowsFor noteColumns a x hx).1]

lemma mergeColumns_length_ge (s : List (Note × String × String)) (noteColumns : SuppTable) :
    s.length ≤ (mergeColumns s noteColumns).length := by
  induction s with
  | nil => simp [mergeColumns]
  | cons a t ih =>
    have hsplit : mergeColumns (a :: t) noteColumns
        = colsRowsFor noteColumns a ++ mergeColumns t noteColumns := by
      unfold mergeColumns
      rw [List.flatMap_cons]
    rw [hsplit, List.length_append, List.length_cons]
    have := colsRowsFor_length_pos noteColumns a
    omega

lemma mergeColumns_ids_of_length (s : List (Note × String × String))
    (noteColumns : SuppTable)
    (h : (mergeColumns s noteColumns).length = s.length) :
    (mergeColumns s noteColumns).map (fun r => r.note.noteId)
      = s.map (fun a => a.1.noteId) := by
  induction s with
  | nil => rfl
  | cons a t ih =>
    have hsplit : mergeColumns (a :: t) noteColumns
        = colsRowsFor noteColumns a ++ mergeColumns t noteColumns := by
      unfold mergeColumns
      rw [List.flatMap_cons]
    rw [hsplit] at h ⊢
    rw [List.length_append, List.length_cons] at h
    have hpos := colsRowsFor_length_pos noteColumns a
    have hge := mergeColumns_length_ge t noteColumns
    have hone : (colsRowsFor noteColumns a).length = 1 := by omega
    have hrest : (mergeColumns t noteColumns).length = t.length := by omega
    rw [List.map_append, colsRowsFor_ids, hone, ih hrest, List.map_cons]
    rfl

lemma mem_mergeColumns (s : List (Note × String × String)) (noteColumns : SuppTable)
    (r : ScoredRow) (hr : r ∈ mergeColumns s noteColumns) :
    ∃ a ∈ s, r.note = a.1 ∧ r.ratingStatus = a.2.1 ∧ r.activeRules = a.2.2 := by
  obtain ⟨a, ha, hra⟩ := List.mem_flatMap.mp hr
  exact ⟨a, ha, mem_colsRowsFor noteColumns a r hra⟩

lemma mem_mergeRules (s : List (Note × String)) (nr : List (Int × String))
    (a : Note × String × String) (ha : a ∈ mergeRules s nr) :
    ∃ b ∈ s, ∃ p ∈ nr, p.1 = b.1.noteId ∧ a = (b.1, b.2, p.2) := by
  obtain ⟨b, hb, hba⟩ := List.mem_flatMap.mp ha
  obtain ⟨p, hp, hpa⟩ := List.mem_map.mp hba
  have hp2 := List.mem_filter.mp hp
  exact ⟨b, hb, p, hp2.1, by simpa using hp2.2, hpa.symm⟩

/-! ### Lemmas about groupByKey -/

lemma groupByKey_keys (l : List (Int × String)) :
    (groupByKey l).map Prod.fst = (l.map Prod.fst).dedup := by
  unfold groupByKey
  rw [List.map_map]
  exact List.map_id _

lemma groupByKey_keys_nodup (l : List (Int × String)) :
    ((groupByKey l).map Prod.fst).Nodup := by
  rw [groupByKey_keys]
  exact List.nodup_dedup _

lemma mem_groupByKey (l : List (Int × String)) (q : Int × List String)
    (hq : q ∈ groupByKey l) :
    q.1 ∈ l.map Prod.fst ∧
      q.2 = (l.filter (fun p => decide (p.1 = q.1))).map Prod.snd := by
  obtain ⟨k, hk, hkq⟩ := List.mem_map.mp hq
  rw [← hkq]
  exact ⟨List.mem_dedup.mp hk, rfl⟩

lemma groupByKey_mem_of_key (l : List (Int × String)) (k : Int)
    (hk : k ∈ l.map Prod.fst) :
    (k, (l.filter (fun p => decide (p.1 = k))).map Prod.snd) ∈ groupByKey l :=
  List.mem_map.mpr ⟨k, List.mem_dedup.mpr hk, rfl⟩

/-! ### Lemmas about the engine loop -/

lemma stepRule_ok_fields (ns : List Note) (st : EngineState) (rule : ScoringRule)
    (st1 : EngineState) (h : stepRule ns st rule = .ok st1) :
    st1.noteLabels = updateLabels st.noteLabels
        (rule.score_notes ns st.noteLabels).1 rule.get_status ∧
    st1.noteRules = st.noteRules ++
        (rule.score_notes ns st.noteLabels).1.map (fun i => (i, rule.get_name)) ∧
    st1.ruleIDs = rule.get_rule_id :: st.ruleIDs := by
  simp only [stepRule] at h
  split at h
  · split at h
    · exact Except.noConfusion h
    · split at h
      · split at h
        · injection h with h2
          subst h2
          exact ⟨rfl, rfl, rfl⟩
        · split at h
          · injection h with h2
            subst h2
            exact ⟨rfl, rfl, rfl⟩
          · exact Except.noConfusion h
      · exact Except.noConfusion h
  · exact Except.noConfusion h

lemma stepRule_dep_error (ns : List Note) (st : EngineState) (rule : ScoringRule)
    (h : rule.check_dependencies st.ruleIDs = false) :
    stepRule ns st rule = .error depErr := by
  simp [stepRule, h]

lemma stepRule_supp_error (ns : List Note) (st : EngineState) (rule : ScoringRule)
    (hdep : rule.check_dependencies st.ruleIDs = true)
    (hdup : rule.get_rule_id ∉ st.ruleIDs)
    (hsupp : checkSuppIds (rule.score_notes ns st.noteLabels) = false) :
    stepRule ns st rule = .error suppIdsErr := by
  simp [stepRule, hdep, hdup, hsupp]

lemma stepRule_col_error (ns : List Note) (st : EngineState) (rule : ScoringRule)
    (supp : SuppTable)
    (hdep : rule.check_dependencies st.ruleIDs = true)
    (hdup : rule.get_rule_id ∉ st.ruleIDs)
    (hsupp : checkSuppIds (rule.score_notes ns st.noteLabels) = true)
    (hsome : (rule.score_notes ns st.noteLabels).2 = some supp)
    (hcol : st.noteColumns.cols.all (fun s => decide (s ∉ supp.cols)) = false) :
    stepRule ns st rule = .error colErr := by
  simp [stepRule, hdep, hdup, hsupp, hsome, hcol]
  simpa using hcol

lemma applyRulesLoop_append (ns : List Note) (a b : List ScoringRule)
    (st : EngineState) :
    applyRulesLoop ns (a ++ b) st = match applyRulesLoop ns a st with
      | .error e => .error e
      | .ok st1 => applyRulesLoop ns b st1 := by
  induction a generalizing st with
  | nil => rfl
  | cons r t ih =>
    simp only [List.cons_append, applyRulesLoop]
    cases hs : stepRule ns st r with
    | error e => rfl
    | ok st1 => exact ih st1

lemma applyRulesLoop_error_cons (ns : List Note) (rule : ScoringRule)
    (rest : List ScoringRule) (st : EngineState) (e : String)
    (h : stepRule ns st rule = .error e) :
    applyRulesLoop ns (rule :: rest) st = .error e := by
  simp only [applyRulesLoop, h]

lemma apply_scoring_rules_error_of_loop (ns : List Note) (rules : List ScoringRule)
    (e : String) (h : applyRulesLoop ns rules initState = .error e) :
    apply_scoring_rules ns rules = .error e := by
  simp only [apply_scoring_rules, h]

lemma applyRulesLoop_labels_nodup (ns : List Note) (rules : List ScoringRule) :
    ∀ st st', applyRulesLoop ns rules st = .ok st' →
      (st.noteLabels.map Prod.fst).Nodup → (st'.noteLabels.map Prod.fst).Nodup := by
  induction rules with
  | nil =>
    intro st st' h hnd
    injection h with h2
    rw [← h2]
    exact hnd
  | cons r t ih =>
    intro st st' h hnd
    simp only [applyRulesLoop] at h
    cases hs : stepRule ns st r with
    | error e => rw [hs] at h; exact Except.noConfusion h
    | ok st1 =>
      rw [hs] at h
      refine ih st1 st' h ?_
      rw [(stepRule_ok_fields ns st r st1 hs).1]
      exact keepLastPerKey_keys_nodup _

lemma applyRulesLoop_ruleIDs (ns : List Note) (rules : List ScoringRule) :
    ∀ st st', applyRulesLoop ns rules st = .ok st' →
      ∀ i, i ∈ st'.ruleIDs ↔ (i ∈ rules.map ScoringRule.get_rule_id ∨ i ∈ st.ruleIDs) := by
  induction rules with
  | nil =>
    intro st st' h i
    injection h with h2
    rw [← h2]
    simp
  | cons r t ih =>
    intro st st' h i
    simp only [applyRulesLoop] at h
    cases hs : stepRule ns st r with
    | error e => rw [hs] at h; exact Except.noConfusion h
    | ok st1 =>
      rw [hs] at h
      rw [List.map_cons, List.mem_cons, ih st1 st' h i,
        (stepRule_ok_fields ns st r st1 hs).2.2, List.mem_cons]
      tauto

lemma runActivationsLoop_of_ok (ns : List Note) (rules : List ScoringRule) :
    ∀ st st', applyRulesLoop ns rules st = .ok st' →
      ∃ tr, runActivationsLoop ns rules st = .ok tr ∧
        st'.noteRules = st.noteRules ++
          tr.flatMap (fun p => p.2.map (fun i => (i, p.1))) := by
  induction rules with
  | nil =>
    intro st st' h
    injection h with h2
    rw [← h2]
    exact ⟨[], rfl, by simp⟩
  | cons r t ih =>
    intro st st' h
    simp only [applyRulesLoop] at h
    cases hs : stepRule ns st r with
    | error e => rw [hs] at h; exact Except.noConfusion h
    | ok st1 =>
      rw [hs] at h
      obtain ⟨tr, htr, hrules⟩ := ih st1 st' h
      refine ⟨(r.get_name, (r.score_notes ns st.noteLabels).1) :: tr, ?_, ?_⟩
      · simp only [runActivationsLoop, hs, htr]
      · rw [hrules, (stepRule_ok_fields ns st r st1 hs).2.1]
        simp [List.append_assoc]

lemma finalizeRun_ok (ns : List Note) (st : EngineState) (t : List ScoredNote)
    (h : finalizeRun ns st = .ok t) :
    sameIntSet (ns.map Note.noteId) (st.noteLabels.map Prod.fst) = true ∧
    sameIntSet (ns.map Note.noteId)
      (((groupByKey st.noteRules).map (fun p => (p.1, joinComma p.2))).map
        Prod.fst) = true ∧
    (mergeColumns (mergeRules (mergeLabels ns st.noteLabels)
      ((groupByKey st.noteRules).map (fun p => (p.1, joinComma p.2))))
      st.noteColumns).length = ns.length ∧
    t = (mergeColumns (mergeRules (mergeLabels ns st.noteLabels)
      ((groupByKey st.noteRules).map (fun p => (p.1, joinComma p.2))))
      st.noteColumns).map setBools := by
  simp only [finalizeRun] at h
  by_cases h1 : sameIntSet (ns.map Note.noteId) (st.noteLabels.map Prod.fst) = true
  · rw [if_pos h1] at h
    by_cases h2 : sameIntSet (ns.map Note.noteId)
        (((groupByKey st.noteRules).map (fun p => (p.1, joinComma p.2))).map
          Prod.fst) = true
    · rw [if_pos h2] at h
      by_cases h3 : (st.noteColumns.rows.map Prod.fst).all
          (fun i => decide (i ∈ ns.map Note.noteId)) = true
      · rw [if_pos h3] at h
        by_cases h4 : (mergeColumns (mergeRules (mergeLabels ns st.noteLabels)
            ((groupByKey st.noteRules).map (fun p => (p.1, joinComma p.2))))
            st.noteColumns).length = ns.length
        · rw [if_pos h4] at h
          injection h with h5
          exact ⟨h1, h2, h4, h5.symm⟩
        · rw [if_neg h4] at h
          exact Except.noConfusion h
      · rw [if_neg h3] at h
        exact Except.noConfusion h
    · rw [if_neg h2] at h
      exact Except.noConfusion h
  · rw [if_neg h1] at h
    exact Except.noConfusion h

lemma sameIntSet_self (l : List Int) : sameIntSet l l = true :=
  (sameIntSet_iff l l).mpr ⟨fun _ hx => hx, fun _ hx => hx⟩

lemma checkSuppIds_of_eq (m : List Int) (supp : SuppTable)
    (h : m = supp.rows.map Prod.fst) : checkSuppIds (m, some supp) = true := by
  simp only [checkSuppIds]
  rw [h]
  exact sameIntSet_self _

/-- C9: apply_scoring_rules is a pure function of its input table and rule
list: two runs on identical inputs produce identical output tables; the
run state is created fresh by `initState` inside the function, so nothing
is carried between runs. -/
theorem apply_scoring_rules_deterministic (ns1 ns2 : List Note)
    (rules1 rules2 : List ScoringRule) (h1 : ns1 = ns2) (h2 : rules1 = rules2) :
    apply_scoring_rules ns1 rules1 = apply_scoring_rules ns2 rules2 := by
  rw [h1, h2]

/-- Witness for C9 at a concrete input. -/
theorem apply_scoring_rules_deterministic_witness :
    apply_scoring_rules threeNotes overwriteRules
      = apply_scoring_rules threeNotes overwriteRules :=
  apply_scoring_rules_deterministic threeNotes threeNotes overwriteRules
    overwriteRules rfl rfl

/-- C2: the label table always holds at most one entry per note id after an
update; an id matched by the later rule ends up with the later rule's
status (last-applied status wins); and in the concrete run with a default
NMR rule followed by an always-true CRH predicate rule over three notes,
every final status is the predicate rule's status. -/
theorem label_table_last_write_wins :
    (∀ labels active status,
      ((updateLabels labels active status).map Prod.fst).Nodup) ∧
    (∀ labels active status k, k ∈ active →
      lookupLast (updateLabels labels active status) k = some status) ∧
    resultStatuses (apply_scoring_rules threeNotes overwriteRules) =
      some [currentlyRatedHelpful, currentlyRatedHelpful, currentlyRatedHelpful] := by
  refine ⟨?_, ?_, ?_⟩
  · intro labels active status
    exact keepLastPerKey_keys_nodup _
  · intro labels active status k hk
    exact lookupLast_updateLabels_mem labels active status k hk
  · rfl

/-- Witness for C2: the overwrite clause applied at a concrete input. -/
theorem label_table_last_write_wins_witness :
    lookupLast (updateLabels [(1, needsMoreRatings)] [1, 2] currentlyRatedHelpful) 1
      = some currentlyRatedHelpful :=
  label_table_last_write_wins.2.1 [(1, needsMoreRatings)] [1, 2]
    currentlyRatedHelpful 1 (by decide)

/-- C4: if a rule lists a prerequisite identity that is not among the
identities of the rules executed before it, the whole run fails with the
dependency error at that rule, independent of that rule's score operation
and of any later rule. -/
theorem dependency_failure_fatal (ns : List Note) (done : List ScoringRule)
    (r : ScoringRule) (rest : List ScoringRule) (st : EngineState) (d : RuleID)
    (hdone : applyRulesLoop ns done initState = .ok st)
    (hd : d ∈ r.dependencies)
    (habs : d ∉ done.map ScoringRule.get_rule_id) :
    apply_scoring_rules ns (done ++ r :: rest) = .error depErr := by
  have hids := applyRulesLoop_ruleIDs ns done initState st hdone d
  have hnotin : d ∉ st.ruleIDs := by
    intro hmem
    rcases hids.mp hmem with h1 | h1
    · exact habs h1
    · simp [initState] at h1
  have hdep : r.check_dependencies st.ruleIDs = false :=
    List.all_eq_false.mpr ⟨d, hd, by simpa using hnotin⟩
  have hloop : applyRulesLoop ns (done ++ r :: rest) initState = .error depErr := by
    rw [applyRulesLoop_append, hdone]
    exact applyRulesLoop_error_cons ns r rest st depErr
      (stepRule_dep_error ns st r hdep)
  exact apply_scoring_rules_error_of_loop ns _ depErr hloop

/-- Witness for C4: a rule requiring INITIAL_NMR placed first fails before
the later default rule can run. -/
theorem dependency_failure_fatal_witness :
    apply_scoring_rules oneNote
      [needsNmrRule, DefaultRule .INITIAL_NMR needsMoreRatings []] = .error depErr :=
  dependency_failure_fatal oneNote [] needsNmrRule
    [DefaultRule .INITIAL_NMR needsMoreRatings []] initState .INITIAL_NMR rfl
    (by decide) (by simp)

/-- C6: a rule whose score operation returns supplemental columns with an
id set different from the matched id set aborts the run with the
supplemental-id error at that rule, before its labels are merged and
regardless of any later rule. -/
theorem supplemental_id_mismatch_fatal (ns : List Note) (done : List ScoringRule)
    (r : ScoringRule) (rest : List ScoringRule) (st : EngineState)
    (hdone : applyRulesLoop ns done initState = .ok st)
    (hdep : r.check_dependencies st.ruleIDs = true)
    (hdup : r.get_rule_id ∉ st.ruleIDs)
    (hsupp : checkSuppIds (r.score_notes ns st.noteLabels) = false) :
    apply_scoring_rules ns (done ++ r :: rest) = .error suppIdsErr := by
  have hloop : applyRulesLoop ns (done ++ r :: rest) initState = .error suppIdsErr := by
    rw [applyRulesLoop_append, hdone]
    exact applyRulesLoop_error_cons ns r rest st suppIdsErr
      (stepRule_supp_error ns st r hdep hdup hsupp)
  exact apply_scoring_rules_error_of_loop ns _ suppIdsErr hloop

/-- Witness for C6: a rule matching note 1 but returning an empty
supplemental table aborts the run. -/
theorem supplemental_id_mismatch_fatal_witness :
    apply_scoring_rules oneNote [badSuppRule] = .error suppIdsErr :=
  supplemental_id_mismatch_fatal oneNote [] badSuppRule [] initState rfl rfl
    (by decide) rfl

/-- C7: when a rule returns a supplemental column whose name was already
contributed by an earlier rule, the run aborts with the column-collision
error at the second rule, producing no output table. -/
theorem supplemental_column_collision_fatal (ns : List Note)
    (done : List ScoringRule) (r : ScoringRule) (rest : List ScoringRule)
    (st : EngineState) (supp : SuppTable)
    (hdone : applyRulesLoop ns done initState = .ok st)
    (hdep : r.check_dependencies st.ruleIDs = true)
    (hdup : r.get_rule_id ∉ st.ruleIDs)
    (hsupp : checkSuppIds (r.score_notes ns st.noteLabels) = true)
    (hsome : (r.score_notes ns st.noteLabels).2 = some supp)
    (hcol : st.noteColumns.cols.all (fun s => decide (s ∉ supp.cols)) = false) :
    apply_scoring_rules ns (done ++ r :: rest) = .error colErr := by
  have hloop : applyRulesLoop ns (done ++ r :: rest) initState = .error colErr := by
    rw [applyRulesLoop_append, hdone]
    exact applyRulesLoop_error_cons ns r rest st colErr
      (stepRule_col_error ns st r supp hdep hdup hsupp hsome hcol)
  exact apply_scoring_rules_error_of_loop ns _ colErr hloop

/-- Witness for C7: two rules both emitting a column named foo abort the
run at the second rule. -/
theorem supplemental_column_collision_fatal_witness :
    apply_scoring_rules oneNote [fooRuleA, fooRuleB] = .error colErr :=
  supplemental_column_collision_fatal oneNote [fooRuleA] fooRuleB [] stateAfterFooA
    ⟨["foo"], [(1, [some "y"])]⟩ rfl rfl (by decide) rfl rfl rfl

/-- C10: the FilterTagOutliers rule always returns a supplemental table
whose id column equals its matched id list (both come from the same grouped
table), so the engine's supplemental-id-equality check accepts it. -/
theorem tag_outlier_supp_ids_match (ruleID : RuleID) (status : String)
    (dependencies : List RuleID)
    (tagRatioPercentile minAdjustedTotal crhSuperThreshold : Int)
    (get_tag_thresholds : List Note → Int → String → Int)
    (ns : List Note) (labels : List (Int × String)) :
    ((FilterTagOutliers ruleID status dependencies tagRatioPercentile
        minAdjustedTotal crhSuperThreshold get_tag_thresholds).score_notes ns labels).1
      = suppIdsOf ((FilterTagOutliers ruleID status dependencies tagRatioPercentile
        minAdjustedTotal crhSuperThreshold get_tag_thresholds).score_notes ns labels) ∧
    checkSuppIds ((FilterTagOutliers ruleID status dependencies tagRatioPercentile
        minAdjustedTotal crhSuperThreshold get_tag_thresholds).score_notes ns labels)
      = true := by
  have h1 : ((FilterTagOutliers ruleID status dependencies tagRatioPercentile
      minAdjustedTotal crhSuperThreshold get_tag_thresholds).score_notes ns labels).1
      = suppIdsOf ((FilterTagOutliers ruleID status dependencies tagRatioPercentile
      minAdjustedTotal crhSuperThreshold get_tag_thresholds).score_notes ns labels) := by
    simp only [FilterTagOutliers, suppIdsOf, suppRowsOf, List.map_map]
    rw [List.dedup_eq_self.mpr (groupByKey_keys_nodup _)]
    rfl
  exact ⟨h1, checkSuppIds_of_eq _ _ h1⟩

/-- C1 counterexample: the empty rule list vacuously respects its own
declared dependencies, yet the run over one note returns no table at all:
it aborts with the label-completeness error.  The claim as stated (every
dependency-respecting rule list yields an N-row table) is therefore false;
completion is an extra hypothesis. -/
theorem empty_rule_list_respects_deps_but_fails :
    respectsDeclaredDependencies [] [] = true ∧
    apply_scoring_rules oneNote [] = Except.error labelsErr :=
  ⟨rfl, rfl⟩

/-- C1 amended: whenever apply_scoring_rules completes, the output table
lists exactly the input note ids in input order — hence exactly N rows —
and when the input ids are distinct, every input note id appears in exactly
one output row, which carries its single final status. -/
theorem apply_scoring_rules_complete (ns : List Note) (rules : List ScoringRule)
    (t : List ScoredNote) (h : apply_scoring_rules ns rules = .ok t) :
    t.length = ns.length ∧
    t.map (fun r => r.note.noteId) = ns.map Note.noteId ∧
    ((ns.map Note.noteId).Nodup → ∀ nid ∈ ns.map Note.noteId,
      (t.map (fun r => r.note.noteId)).count nid = 1) := by
  simp only [apply_scoring_rules] at h
  cases hloop : applyRulesLoop ns rules initState with
  | error e => rw [hloop] at h; exact Except.noConfusion h
  | ok st =>
    rw [hloop] at h
    obtain ⟨h1, h2, h4, ht⟩ := finalizeRun_ok ns st t h
    set nrG := (groupByKey st.noteRules).map (fun p => (p.1, joinComma p.2)) with hnrG
    have hlnd : (st.noteLabels.map Prod.fst).Nodup :=
      applyRulesLoop_labels_nodup ns rules initState st hloop (by simp [initState])
    have hcov1 : ∀ n ∈ ns, n.noteId ∈ st.noteLabels.map Prod.fst := by
      intro n hn
      exact ((sameIntSet_iff _ _).mp h1).1 _ (List.mem_map_of_mem Note.noteId hn)
    have hs1 : (mergeLabels ns st.noteLabels).map Prod.fst = ns :=
      mergeLabels_map_fst ns st.noteLabels hlnd hcov1
    have hgnd : (nrG.map Prod.fst).Nodup := by
      rw [hnrG, List.map_map]
      exact groupByKey_keys_nodup st.noteRules
    have hcov2 : ∀ a ∈ mergeLabels ns st.noteLabels, a.1.noteId ∈ nrG.map Prod.fst := by
      intro a ha
      have hmem : a.1 ∈ ns := by
        rw [← hs1]
        exact List.mem_map_of_mem Prod.fst ha
      exact ((sameIntSet_iff _ _).mp h2).1 _ (List.mem_map_of_mem Note.noteId hmem)
    have hs2 : (mergeRules (mergeLabels ns st.noteLabels) nrG).map Prod.fst
        = (mergeLabels ns st.noteLabels).map Prod.fst :=
      mergeRules_map_fst _ nrG hgnd hcov2
    have hs2len : (mergeRules (mergeLabels ns st.noteLabels) nrG).length = ns.length := by
      have e1 := congrArg List.length hs2
      have e2 := congrArg List.length hs1
      simpa using e1.trans e2
    have hids3 : (mergeColumns (mergeRules (mergeLabels ns st.noteLabels) nrG)
        st.noteColumns).map (fun r => r.note.noteId)
        = (mergeRules (mergeLabels ns st.noteLabels) nrG).map (fun a => a.1.noteId) := by
      apply mergeColumns_ids_of_length
      rw [h4, hs2len]
    have hmapmap : (mergeRules (mergeLabels ns st.noteLabels) nrG).map
        (fun a => a.1.noteId)
        = ((mergeRules (mergeLabels ns st.noteLabels) nrG).map Prod.fst).map
          Note.noteId := by
      rw [List.map_map]
      rfl
    have hidseq : (mergeColumns (mergeRules (mergeLabels ns st.noteLabels) nrG)
        st.noteColumns).map (fun r => r.note.noteId) = ns.map Note.noteId := by
      rw [hids3, hmapmap, hs2, hs1]
    have htids : t.map (fun r => r.note.noteId) = ns.map Note.noteId := by
      rw [ht, List.map_map]
      exact hidseq
    refine ⟨?_, htids, ?_⟩
    · rw [ht, List.length_map, h4]
    · intro hnd nid hmem
      rw [htids]
      exact List.count_eq_one_of_mem hnd hmem

/-- Witness for the amended C1 at a concrete two-rule run over three notes. -/
theorem apply_scoring_rules_complete_witness :
    resultIds (apply_scoring_rules threeNotes overwriteRules)
      = some (threeNotes.map Note.noteId) := by
  cases hm : apply_scoring_rules threeNotes overwriteRules with
  | error e =>
    have hval : resultIds (apply_scoring_rules threeNotes overwriteRules)
        = some [1, 2, 3] := rfl
    rw [hm] at hval
    simp [resultIds] at hval
  | ok t =>
    have h3 := (apply_scoring_rules_complete threeNotes overwriteRules t hm).2.1
    simp [resultIds, h3]

/-- C3: over the CRH-labeled restriction of the note table and with the
provider-computed thresholds, the tag filter records a (note id, tag) pair
exactly when the tag is a non-exempt member of the fixed tag list and a
CRH-restricted row with that id has adjusted total strictly above the
floor, adjusted ratio strictly above that tag's threshold and intercept
strictly below the super threshold; the two exempted tags never contribute,
and (for distinct ids) a note whose intercept is at or above the super
threshold is never recorded for any tag. -/
theorem tag_outlier_trigger_condition (ns : List Note)
    (labels : List (Int × String))
    (minAdjustedTotal crhSuperThreshold tagRatioPercentile : Int)
    (get_tag_thresholds : List Note → Int → String → Int)
    (thresholds : String → Int)
    (hthr : thresholds = get_tag_thresholds (crhStatsOf ns labels) tagRatioPercentile) :
    (∀ nid tag,
      (nid, tag) ∈ impactedPairsOf (crhStatsOf ns labels) thresholds
          minAdjustedTotal crhSuperThreshold ↔
        (tag ∈ notHelpfulTagsTSVOrder ∧ tag ≠ notHelpfulHardToUnderstandKey ∧
          tag ≠ notHelpfulNoteNotNeededKey ∧
          ∃ n ∈ crhStatsOf ns labels, n.noteId = nid ∧
            n.adjustedTotal tag > minAdjustedTotal ∧
            n.adjustedRatio tag > thresholds tag ∧
            n.noteIntercept < crhSuperThreshold)) ∧
    (∀ nid tag,
      (tag = notHelpfulHardToUnderstandKey ∨ tag = notHelpfulNoteNotNeededKey) →
      (nid, tag) ∉ impactedPairsOf (crhStatsOf ns labels) thresholds
        minAdjustedTotal crhSuperThreshold) ∧
    (((crhStatsOf ns labels).map Note.noteId).Nodup →
      ∀ n ∈ crhStatsOf ns labels, crhSuperThreshold ≤ n.noteIntercept →
        ∀ tag, (n.noteId, tag) ∉ impactedPairsOf (crhStatsOf ns labels) thresholds
          minAdjustedTotal crhSuperThreshold) := by
  have hiff : ∀ nid tag,
      (nid, tag) ∈ impactedPairsOf (crhStatsOf ns labels) thresholds
          minAdjustedTotal crhSuperThreshold ↔
        (tag ∈ notHelpfulTagsTSVOrder ∧ tag ≠ notHelpfulHardToUnderstandKey ∧
          tag ≠ notHelpfulNoteNotNeededKey ∧
          ∃ n ∈ crhStatsOf ns labels, n.noteId = nid ∧
            n.adjustedTotal tag > minAdjustedTotal ∧
            n.adjustedRatio tag > thresholds tag ∧
            n.noteIntercept < crhSuperThreshold) := by
    intro nid tag
    simp only [impactedPairsOf, List.mem_flatMap]
    constructor
    · rintro ⟨tag1, htag1, hmem⟩
      by_cases hex : tag1 = notHelpfulHardToUnderstandKey ∨
          tag1 = notHelpfulNoteNotNeededKey
      · rw [if_pos hex] at hmem
        cases hmem
      · rw [if_neg hex] at hmem
        obtain ⟨i, hi, hpair⟩ := List.mem_map.mp hmem
        injection hpair with e1 e2
        subst e1
        subst e2
        unfold tagFilteredNotes at hi
        obtain ⟨n, hn, hni⟩ := List.mem_map.mp hi
        have hf := List.mem_filter.mp hn
        have hconds := hf.2
        simp only [Bool.and_eq_true, decide_eq_true_eq] at hconds
        exact ⟨htag1, fun he => hex (Or.inl he), fun he => hex (Or.inr he),
          n, hf.1, hni, hconds.1.1, hconds.1.2, hconds.2⟩
    · rintro ⟨htag, hne1, hne2, n, hn, hni, hc1, hc2, hc3⟩
      refine ⟨tag, htag, ?_⟩
      rw [if_neg (by tauto)]
      refine List.mem_map.mpr ⟨n.noteId, ?_, by rw [hni]⟩
      unfold tagFilteredNotes
      exact List.mem_map.mpr
        ⟨n, List.mem_filter.mpr ⟨hn, by simp [hc1, hc2, hc3]⟩, rfl⟩
  refine ⟨hiff, ?_, ?_⟩
  · intro nid tag hex hmem
    obtain ⟨_, hne1, hne2, _⟩ := (hiff nid tag).mp hmem
    tauto
  · intro hnd n hn hsup tag hmem
    obtain ⟨_, _, _, m, hm, hmi, _, _, hc3⟩ := (hiff n.noteId tag).mp hmem
    have : m = n := List.inj_on_of_nodup_map hnd hm hn hmi
    rw [this] at hc3
    omega

/-- Witness for C3: note 1 with all-one statistics, zero thresholds, zero
floor and super threshold 10 triggers the spam tag. -/
theorem tag_outlier_trigger_condition_witness :
    (1, "spam") ∈ impactedPairsOf (crhStatsOf threeNotes [(1, currentlyRatedHelpful)])
      (fun _ => 0) 0 10 :=
  ((tag_outlier_trigger_condition threeNotes [(1, currentlyRatedHelpful)] 0 10 95
      (fun _ _ _ => 0) (fun _ => 0) rfl).1 1 "spam").mpr
    ⟨by decide, by decide, by decide, mkNote 1 0, by
      have : crhStatsOf threeNotes [(1, currentlyRatedHelpful)] = [mkNote 1 0] := rfl
      rw [this]
      exact List.mem_singleton.mpr rfl, rfl, by decide, by decide, by decide⟩

lemma triggering_tags_group (crh : List Note) (thresholds : String → Int)
    (minAdjustedTotal crhSuperThreshold : Int) (n : Note)
    (hnd : (crh.map Note.noteId).Nodup) (hn : n ∈ crh) (tl : List String) :
    ((tl.flatMap (fun tag =>
      if tag = notHelpfulHardToUnderstandKey ∨ tag = notHelpfulNoteNotNeededKey
      then []
      else (tagFilteredNotes crh thresholds minAdjustedTotal crhSuperThreshold
        tag).map (fun i => (i, tag)))).filter
          (fun p => decide (p.1 = n.noteId))).map Prod.snd
    = tl.filter (fun tag =>
        !(decide (tag = notHelpfulHardToUnderstandKey) ||
          decide (tag = notHelpfulNoteNotNeededKey)) &&
        (decide (n.adjustedTotal tag > minAdjustedTotal) &&
         decide (n.adjustedRatio tag > thresholds tag) &&
         decide (n.noteIntercept < crhSuperThreshold))) := by
  induction tl with
  | nil => rfl
  | cons t tl ih =>
    rw [List.flatMap_cons, List.filter_append, List.map_append, ih]
    by_cases hex : t = notHelpfulHardToUnderstandKey ∨ t = notHelpfulNoteNotNeededKey
    · rw [if_pos hex, List.filter_cons_of_neg (by rcases hex with h | h <;> simp [h])]
      simp
    · rw [if_neg hex]
      push_neg at hex
      have hhead : (((tagFilteredNotes crh thresholds minAdjustedTotal
          crhSuperThreshold t).map (fun i => (i, t))).filter
            (fun p => decide (p.1 = n.noteId))).map Prod.snd
          = if (decide (n.adjustedTotal t > minAdjustedTotal) &&
              decide (n.adjustedRatio t > thresholds t) &&
              decide (n.noteIntercept < crhSuperThreshold)) = true
            then [t] else [] := by
        unfold tagFilteredNotes
        rw [List.map_map, List.filter_map, List.filter_filter,
          List.filter_congr (fun a _ => Bool.and_comm _ _), List.map_map]
        have hcong : ∀ a ∈ crh,
            ((decide (a.adjustedTotal t > minAdjustedTotal) &&
              decide (a.adjustedRatio t > thresholds t) &&
              decide (a.noteIntercept < crhSuperThreshold)) &&
              ((fun p => decide (p.1 = n.noteId)) ∘ (fun i => (i, t)) ∘
                Note.noteId) a)
            = ((decide (a.adjustedTotal t > minAdjustedTotal) &&
              decide (a.adjustedRatio t > thresholds t) &&
              decide (a.noteIntercept < crhSuperThreshold)) &&
              decide (Note.noteId a = Note.noteId n)) := fun a _ => rfl
        rw [List.filter_congr hcong,
          filter_map_eq_singleton Note.noteId _ crh n hnd hn]
        by_cases hct : (decide (n.adjustedTotal t > minAdjustedTotal) &&
            decide (n.adjustedRatio t > thresholds t) &&
            decide (n.noteIntercept < crhSuperThreshold)) = true
        · rw [if_pos hct, if_pos hct]
          rfl
        · rw [if_neg hct, if_neg hct]
          rfl
      rw [hhead]
      by_cases hct : (decide (n.adjustedTotal t > minAdjustedTotal) &&
          decide (n.adjustedRatio t > thresholds t) &&
          decide (n.noteIntercept < crhSuperThreshold)) = true
      · rw [if_pos hct, List.filter_cons_of_pos (by simp at hct ⊢; tauto)]
        rfl
      · rw [if_neg hct, List.filter_cons_of_neg (by simp at hct ⊢; tauto)]
        simp

/-- C5: for a note of the CRH restriction whose set of triggering non-exempt
tags is nonempty (over distinct input ids and a duplicate-free label table),
the supplemental table returned by FilterTagOutliers carries for that note
exactly the comma-join of its triggering tags, ordered by the fixed tag
list rather than by trigger order. -/
theorem active_filter_tags_fixed_order (ns : List Note)
    (labels : List (Int × String)) (ruleID : RuleID) (status : String)
    (dependencies : List RuleID)
    (tagRatioPercentile minAdjustedTotal crhSuperThreshold : Int)
    (get_tag_thresholds : List Note → Int → String → Int)
    (thresholds : String → Int)
    (hthr : thresholds = get_tag_thresholds (crhStatsOf ns labels) tagRatioPercentile)
    (hns : (ns.map Note.noteId).Nodup)
    (hlab : (labels.map Prod.fst).Nodup)
    (n : Note) (hn : n ∈ crhStatsOf ns labels)
    (hne : triggeringTags thresholds minAdjustedTotal crhSuperThreshold n ≠ []) :
    (n.noteId, [some (joinComma (triggeringTags thresholds minAdjustedTotal
        crhSuperThreshold n))])
      ∈ suppRowsOf ((FilterTagOutliers ruleID status dependencies
        tagRatioPercentile minAdjustedTotal crhSuperThreshold
        get_tag_thresholds).score_notes ns labels) := by
  subst hthr
  have hnd2 : ((crhStatsOf ns labels).map Note.noteId).Nodup := by
    rw [crhStatsOf_eq_filter ns labels hlab]
    exact hns.sublist ((List.filter_sublist ns).map Note.noteId)
  have hgv : ((impactedPairsOf (crhStatsOf ns labels)
      (get_tag_thresholds (crhStatsOf ns labels) tagRatioPercentile)
      minAdjustedTotal crhSuperThreshold).filter
        (fun p => decide (p.1 = n.noteId))).map Prod.snd
      = triggeringTags (get_tag_thresholds (crhStatsOf ns labels) tagRatioPercentile)
          minAdjustedTotal crhSuperThreshold n :=
    triggering_tags_group (crhStatsOf ns labels)
      (get_tag_thresholds (crhStatsOf ns labels) tagRatioPercentile)
      minAdjustedTotal crhSuperThreshold n hnd2 hn notHelpfulTagsTSVOrder
  obtain ⟨tg, htg⟩ := List.exists_mem_of_ne_nil _ hne
  have htg2 : tg ∈ ((impactedPairsOf (crhStatsOf ns labels)
      (get_tag_thresholds (crhStatsOf ns labels) tagRatioPercentile)
      minAdjustedTotal crhSuperThreshold).filter
        (fun p => decide (p.1 = n.noteId))).map Prod.snd := by
    rw [hgv]
    exact htg
  obtain ⟨p, hp, hps⟩ := List.mem_map.mp htg2
  have hf := List.mem_filter.mp hp
  have hp1 : p.1 = n.noteId := by simpa using hf.2
  have hkmem : n.noteId ∈ (impactedPairsOf (crhStatsOf ns labels)
      (get_tag_thresholds (crhStatsOf ns labels) tagRatioPercentile)
      minAdjustedTotal crhSuperThreshold).map Prod.fst :=
    hp1 ▸ List.mem_map_of_mem Prod.fst hf.1
  have hmemg := groupByKey_mem_of_key _ n.noteId hkmem
  rw [hgv] at hmemg
  exact List.mem_map.mpr ⟨(n.noteId, triggeringTags
    (get_tag_thresholds (crhStatsOf ns labels) tagRatioPercentile)
    minAdjustedTotal crhSuperThreshold n), hmemg, rfl⟩

/-- Witness for C5: a note triggering both spam and harassment receives the
supplemental value spam,harassment in fixed tag-list order. -/
theorem active_filter_tags_fixed_order_witness :
    ((1 : Int), [some "spam,harassment"])
      ∈ suppRowsOf (ftoRule.score_notes threeNotes [(1, currentlyRatedHelpful)]) := by
  have h := active_filter_tags_fixed_order threeNotes [(1, currentlyRatedHelpful)]
    .TAG_OUTLIER needsMoreRatings [] 95 0 10 (fun _ _ _ => 0) (fun _ => 0) rfl
    (by decide) (by decide) (mkNote 1 0) (by
      have e : crhStatsOf threeNotes [(1, currentlyRatedHelpful)] = [mkNote 1 0] := rfl
      rw [e]
      exact List.mem_singleton.mpr rfl) (by decide)
  exact h

lemma trace_names (tr : List (String × List Int))
    (hnd : ∀ p ∈ tr, p.2.Nodup) (i : Int) :
    ((tr.flatMap (fun p => p.2.map (fun j => (j, p.1)))).filter
      (fun q => decide (q.1 = i))).map Prod.snd
    = (tr.filter (fun p => decide (i ∈ p.2))).map Prod.fst := by
  induction tr with
  | nil => rfl
  | cons p tl ih =>
    rw [List.flatMap_cons, List.filter_append, List.map_append,
      ih (fun x hx => hnd x (List.mem_cons_of_mem _ hx))]
    by_cases hi : i ∈ p.2
    · have hhead : ((p.2.map (fun j => (j, p.1))).filter
          (fun q => decide (q.1 = i))).map Prod.snd = [p.1] := by
        rw [List.filter_map, List.map_map]
        have hcong : ∀ j ∈ p.2,
            ((fun q => decide (q.1 = i)) ∘ (fun j => (j, p.1))) j
            = (fun j => decide (j = i)) j := fun j _ => rfl
        rw [List.filter_congr hcong,
          filter_eq_of_nodup_mem p.2 i (hnd p (by simp)) hi]
        rfl
      rw [hhead, List.filter_cons_of_pos (by simp [hi]), List.map_cons]
      rfl
    · have hhead : ((p.2.map (fun j => (j, p.1))).filter
          (fun q => decide (q.1 = i))).map Prod.snd = [] := by
        rw [List.filter_map, List.map_map]
        have hcong : ∀ j ∈ p.2,
            ((fun q => decide (q.1 = i)) ∘ (fun j => (j, p.1))) j
            = (fun j => decide (j = i)) j := fun j _ => rfl
        rw [List.filter_congr hcong, filter_eq_nil_of_not_mem p.2 i hi]
        rfl
      rw [hhead, List.filter_cons_of_neg (by simp [hi])]
      simp

/-- C8: in a completed run whose rules return duplicate-free matched id
lists, every output row's audit column is the comma-join of the display
names of exactly the rules of the activation trace that matched the row's
note, in rule-application order. -/
theorem audit_column_rule_names (ns : List Note) (rules : List ScoringRule)
    (t : List ScoredNote) (tr : List (String × List Int))
    (hok : apply_scoring_rules ns rules = .ok t)
    (htr : runActivationsLoop ns rules initState = .ok tr)
    (hnd : ∀ p ∈ tr, p.2.Nodup) :
    ∀ r ∈ t, r.activeRules = joinComma
      ((tr.filter (fun p => decide (r.note.noteId ∈ p.2))).map Prod.fst) := by
  simp only [apply_scoring_rules] at hok
  cases hloop : applyRulesLoop ns rules initState with
  | error e => rw [hloop] at hok; exact Except.noConfusion hok
  | ok st =>
    rw [hloop] at hok
    obtain ⟨tr2, htr2, hrules⟩ := runActivationsLoop_of_ok ns rules initState st hloop
    rw [htr] at htr2
    injection htr2 with he
    subst he
    have hnr : st.noteRules = tr.flatMap (fun p => p.2.map (fun i => (i, p.1))) := by
      simpa [initState] using hrules
    obtain ⟨_, _, _, ht⟩ := finalizeRun_ok ns st t hok
    intro r hr
    rw [ht] at hr
    obtain ⟨r3, hr3, hrr⟩ := List.mem_map.mp hr
    obtain ⟨a, ha, hfields⟩ := mem_mergeColumns _ _ r3 hr3
    obtain ⟨b, hb, p, hpmem, hpk, hae⟩ := mem_mergeRules _ _ a ha
    obtain ⟨q, hq, hqp⟩ := List.mem_map.mp hpmem
    have hqdec := mem_groupByKey st.noteRules q hq
    have hid : r.note.noteId = q.1 := by
      rw [← hrr]
      show r3.note.noteId = q.1
      rw [hfields.1, hae]
      show b.1.noteId = q.1
      rw [← hpk, ← hqp]
    have hval : q.2 = (tr.filter (fun x => decide (q.1 ∈ x.2))).map Prod.fst := by
      rw [hqdec.2, hnr]
      exact trace_names tr hnd q.1
    have hrules3 : r.activeRules = joinComma q.2 := by
      rw [← hrr]
      show r3.activeRules = joinComma q.2
      rw [hfields.2.2, hae]
      show p.2 = joinComma q.2
      rw [← hqp]
    rw [hrules3, hid, hval]

/-- Witness for C8: in the concrete three-note run, every row's audit
column equals the trace-join formula for its note id. -/
theorem audit_column_rule_names_witness :
    (apply_scoring_rules threeNotes overwriteRules).toOption.map
      (fun t => t.map (fun r => r.activeRules))
    = (apply_scoring_rules threeNotes overwriteRules).toOption.map
      (fun t => t.map (fun r => joinComma
        ((([("InitialNMR (v1.0)", [(1 : Int), 2, 3]),
            ("GeneralCRH (v1.0)", [(1 : Int), 2, 3])]).filter
          (fun p => decide (r.note.noteId ∈ p.2))).map Prod.fst))) := by
  cases hm : apply_scoring_rules threeNotes overwriteRules with
  | error e => rfl
  | ok t =>
    have h := audit_column_rule_names threeNotes overwriteRules t
      [("InitialNMR (v1.0)", [(1 : Int), 2, 3]),
       ("GeneralCRH (v1.0)", [(1 : Int), 2, 3])] hm rfl (by decide)
    simp only [Except.toOption, Option.map]
    congr 1
    exact List.map_congr_left h
